import Mathlib

/-!
# Verification of the BeanHopp local search ranker

Shallow embedding of the local fuzzy-search ranker implemented in
`frontend/app/(tabs)/gifts.tsx` (`performLocalSearch`, `calculateSimilarity`,
`levenshteinDistance`), together with the data model it operates on.

Modelling conventions:
* JavaScript strings are modelled as Lean `String` (lists of `Char`); the
  ASCII fragment of `toLowerCase`, `trim`, `startsWith`, `includes` and
  `split(' ')` is modelled faithfully by character-level definitions.
* JavaScript numbers that are used as scores are nonnegative integers in the
  source (fixed bonuses and `Math.round` of a nonnegative value), modelled
  as `Nat`.  The similarity ratio is a genuine fraction and is modelled as
  `ℚ`; for the tiny integer ratios produced here, IEEE doubles compute the
  comparisons with `0.6` and `Math.round(x * 30)` exactly as the rationals do.
* `Array.prototype.sort` with comparator `(a, b) => b._score - a._score` is a
  stable descending sort (ES2019); any stable descending sort computes the
  same list, and we use a stable insertion sort.
* The transient `_score` annotation written by `{ ...shop, _score: score }` is
  modelled by the explicit annotation structure `ScoredShop`.
-/

/-- ASCII lowercasing, modelling `String.prototype.toLowerCase` on the ASCII
fragment (`gifts.tsx` lines 971, 976-978, 1008). -/
def toLowerStr (s : String) : String := ⟨s.data.map Char.toLower⟩

/-- The characters removed by `String.prototype.trim` (ASCII fragment). -/
def isWSChar (c : Char) : Bool := c = ' ' || c = '\t' || c = '\n' || c = '\r'

/-- `String.prototype.trim`: drop whitespace from both ends. -/
def trimStr (s : String) : String :=
  ⟨((s.data.dropWhile isWSChar).reverse.dropWhile isWSChar).reverse⟩

/-- `String.prototype.startsWith` (`gifts.tsx` lines 984, 986). -/
def startsWithStr (s pre : String) : Bool := List.isPrefixOf pre.data s.data

/-- `String.prototype.includes`: substring containment
(`gifts.tsx` lines 988, 990, 992). -/
def containsStr (s pat : String) : Bool := decide (pat.data <:+: s.data)

/-- `String.prototype.split(' ')` on the character list: split at every
occurrence of the single space character U+0020 (`gifts.tsx` line 986).
Consecutive separators produce empty words, as in JavaScript. -/
def splitChars : List Char → List (List Char)
  | [] => [[]]
  | c :: cs =>
    match splitChars cs with
    | [] => [[]]
    | w :: ws => if c = ' ' then [] :: w :: ws else (c :: w) :: ws

/-- The words of a shop name as produced by `name.split(' ')`. -/
def nameWords (name : String) : List (List Char) := splitChars name.data

/-- Row `i + 1` of the dynamic-programming table built by
`levenshteinDistance` (`gifts.tsx` lines 1038-1048), given row `i` as the
function `rowPrev`: entry `0` is the seed `matrix[i+1][0] = i+1`
(line 1028), and entry `j + 1` compares `str2.charAt(i)` with
`str1.charAt(j)` and takes the diagonal entry on a match, else
`Math.min(diagonal + 1, left + 1, above + 1)` in the source's order.
`charAt` out of range yields `""` in JavaScript; the `Option` values compare
exactly the same way. -/
def levEntryRow (l1 l2 : List Char) (rowPrev : Nat → Nat) (i : Nat) : Nat → Nat
  | 0 => i + 1
  | j + 1 =>
    if l2.get? i = l1.get? j then
      rowPrev j
    else
      min (rowPrev j + 1)
        (min (levEntryRow l1 l2 rowPrev i j + 1) (rowPrev (j + 1) + 1))

/-- The rows of the dynamic-programming table: row `0` is the seed
`matrix[0][j] = j` (`gifts.tsx` line 1032), and each later row is built from
its predecessor by `levEntryRow`. -/
def levEntryFun (l1 l2 : List Char) : Nat → Nat → Nat
  | 0 => fun j => j
  | i + 1 => levEntryRow l1 l2 (levEntryFun l1 l2 i) i

/-- Entry `matrix[i][j]` of the dynamic-programming table. -/
def levEntry (l1 l2 : List Char) (i j : Nat) : Nat := levEntryFun l1 l2 i j

/-- `levenshteinDistance(str1, str2)` returns `matrix[str2.length][str1.length]`
(`gifts.tsx` line 1050). -/
def levenshteinDistance (str1 str2 : String) : Nat :=
  levEntry str1.data str2.data str2.data.length str1.data.length

/-- `calculateSimilarity(str1, str2)` (`gifts.tsx` lines 1015-1023): pick the
longer and shorter argument (ties keep `str2` as the longer one), return `1.0`
for two empty strings, else `(longer.length - editDistance) / longer.length`. -/
def calculateSimilarity (str1 str2 : String) : ℚ :=
  let longer := if str1.data.length > str2.data.length then str1 else str2
  let shorter := if str1.data.length > str2.data.length then str2 else str1
  if longer.data.length = 0 then 1
  else ((longer.data.length : ℚ) - (levenshteinDistance longer shorter : ℚ)) /
    (longer.data.length : ℚ)

/-- `Math.round` on the nonnegative values produced here: round half up. -/
def mathRound (x : ℚ) : ℤ := ⌊x + 1 / 2⌋

/-- A shop record, from `interface Shop` (`gifts.tsx` lines 696-710); only the
fields the ranker reads plus representative payload fields are carried.
`description` and `address` are `Option`s because the code defensively
defaults them with `|| ''` (`gifts.tsx` lines 977-978). -/
structure Shop where
  id : String
  name : String
  description : Option String
  address : Option String
  city : String
  rating_count : Nat
  is_active : Bool
deriving DecidableEq, Repr

/-- A menu item, from `interface MenuItem` (`gifts.tsx` lines 712-721); the
local ranker never constructs one (`menu_items` stays empty). -/
structure MenuItem where
  id : String
  name : String
  category : String
  shop_id : String
deriving DecidableEq, Repr

/-- A shop annotated with the transient `_score` written by
`{ ...shop, _score: score }` (`gifts.tsx` line 999). -/
structure ScoredShop where
  shop : Shop
  score : Nat
deriving DecidableEq, Repr

/-- `interface SearchResults` (`gifts.tsx` lines 734-738).  The `shops` field
carries the score annotations, as the source's records do. -/
structure SearchResults where
  shops : List ScoredShop
  menu_items : List MenuItem
  suggestions : List String
deriving DecidableEq, Repr

/-- Name-tier score, rules 1-4 of the scoring block
(`gifts.tsx` lines 980-988): exactly one of `+100/+80/+60/+40` is awarded,
the first applicable of exact match, prefix, word start (splitting on the
space character), substring. -/
def nameTierScore (q name : String) : Nat :=
  if name = q then 100
  else if startsWithStr name q then 80
  else if (nameWords name).any (fun w => List.isPrefixOf q.data w) then 60
  else if containsStr name q then 40
  else 0

/-- Description bonus, rule 5 (`gifts.tsx` line 990). -/
def descBonus (q desc : String) : Nat := if containsStr desc q then 20 else 0

/-- Address bonus, rule 6 (`gifts.tsx` line 992). -/
def addrBonus (q addr : String) : Nat := if containsStr addr q then 10 else 0

/-- The typo-fallback award (`gifts.tsx` lines 995-997): when the similarity
exceeds `0.6`, add `Math.round(similarity * 30)`. -/
def fallbackAward (q name : String) : Nat :=
  let similarity := calculateSimilarity q name
  if 3 / 5 < similarity then (mathRound (similarity * 30)).toNat else 0

/-- Scoring one candidate (`gifts.tsx` lines 975-999): lower-case the fields,
default missing description/address to `''`, accumulate the name tier and the
two bonuses, and run the fallback only when the accumulated score is `0`. -/
def scoreShop (q : String) (shop : Shop) : ScoredShop :=
  let name := toLowerStr shop.name
  let desc := toLowerStr (shop.description.getD "")
  let addr := toLowerStr (shop.address.getD "")
  let base := nameTierScore q name + descBonus q desc + addrBonus q addr
  { shop := shop
    score := if base = 0 then base + fallbackAward q name else base }

/-- Stable descending insertion into a list already sorted by descending
score: a new element (earlier in the input) goes in front of every element of
equal score. -/
def insertScored (x : ScoredShop) : List ScoredShop → List ScoredShop
  | [] => [x]
  | y :: ys => if y.score ≤ x.score then x :: y :: ys else y :: insertScored x ys

/-- Stable sort by descending score, modelling
`.sort((a, b) => b._score! - a._score!)` (`gifts.tsx` line 1004); the ES2019
comparator sort is stable, and a stable descending sort is unique. -/
def sortByScoreDesc : List ScoredShop → List ScoredShop
  | [] => []
  | x :: xs => insertScored x (sortByScoreDesc xs)

/-- The static popular-search list (`gifts.tsx` line 1008). -/
def popularSearches : List String :=
  ["Latte", "Espresso", "Cold Brew", "Matcha", "Cappuccino", "Americano",
    "Mocha", "Croissant", "Oat Milk", "Iced Coffee"]

/-- `performLocalSearch(query)` (`gifts.tsx` lines 969-1012), with the
surrounding component's `shops` state passed explicitly as the candidate
list: normalize the query, score every candidate, keep the positive scores
sorted descending (stable) truncated to 10, leave `menu_items` empty, and
filter the static suggestion list by the normalized query, truncated to 5. -/
def performLocalSearch (query : String) (shops : List Shop) : SearchResults :=
  let q := trimStr (toLowerStr query)
  let scoredShops := shops.map (scoreShop q)
  { shops := (sortByScoreDesc (scoredShops.filter (fun s => 0 < s.score))).take 10
    menu_items := []
    suggestions :=
      (popularSearches.filter (fun p => containsStr (toLowerStr p) q)).take 5 }

/-- The pool the ranked shop list is drawn from (`gifts.tsx` lines 1002-1003):
the scored candidates whose score is positive, in input order. -/
def rankedPool (query : String) (shops : List Shop) : List ScoredShop :=
  (shops.map (scoreShop (trimStr (toLowerStr query)))).filter (fun s => 0 < s.score)

/-- The guard in the caller `handleSearch` (`gifts.tsx` lines 946-949): a
query of length `0` immediately produces the empty result set and no search
runs; any other query falls through to the debounced search path. -/
def handleSearchGuard (query : String) : Option SearchResults :=
  if query.data.length = 0 then some ⟨[], [], []⟩ else none

/-- The classic Levenshtein recurrence (Wagner-Fischer), consuming the two
strings from the front; the reference definition the table is verified
against. -/
def lev : List Char → List Char → Nat
  | [], ys => ys.length
  | _ :: xs, [] => xs.length + 1
  | x :: xs, y :: ys =>
    if x = y then lev xs ys
    else 1 + min (lev xs ys) (min (lev (x :: xs) ys) (lev xs (y :: ys)))
  termination_by xs ys => xs.length + ys.length

/-- `claimedNameTierScore` — /Modelled from the spec's words/ for the
refinement comparison in C1: identical to `nameTierScore` except that rule 3
takes the words of the name delimited by arbitrary whitespace, as the spec
sentence "any whitespace-delimited word in name starts with query" states. -/
def whitespaceWords (name : String) : List (List Char) :=
  name.data.splitOnP isWSChar

/-- The name-tier scoring as the claim C1 words it, with rule 3 ranging over
whitespace-delimited words. -/
def claimedNameTierScore (q name : String) : Nat :=
  if name = q then 100
  else if startsWithStr name q then 80
  else if (whitespaceWords name).any (fun w => List.isPrefixOf q.data w) then 60
  else if containsStr name q then 40
  else 0

theorem lev_nil_left (ys : List Char) : lev [] ys = ys.length := by
  simp [lev]

theorem lev_nil_right (xs : List Char) : lev xs [] = xs.length := by
  cases xs <;> simp [lev]

theorem lev_cons_cons (x y : Char) (xs ys : List Char) :
    lev (x :: xs) (y :: ys) =
      if x = y then lev xs ys
      else 1 + min (lev xs ys) (min (lev (x :: xs) ys) (lev xs (y :: ys))) := by
  simp [lev]

theorem lev_length_aux :
    ∀ n, ∀ xs ys : List Char, xs.length + ys.length ≤ n →
      ys.length ≤ lev xs ys + xs.length ∧ xs.length ≤ lev xs ys + ys.length := by
  intro n
  induction n with
  | zero =>
    intro xs ys h
    have hx : xs.length = 0 := by omega
    have hy : ys.length = 0 := by omega
    rw [List.length_eq_zero] at hx hy
    subst hx; subst hy
    simp [lev_nil_left]
  | succ n ih =>
    intro xs ys h
    cases xs with
    | nil => simp [lev_nil_left]
    | cons a xs =>
      cases ys with
      | nil => simp [lev_nil_right]
      | cons b ys =>
        simp only [List.length_cons] at h
        obtain ⟨h1, h1'⟩ := ih xs ys (by omega)
        obtain ⟨h2, h2'⟩ := ih (a :: xs) ys (by simp; omega)
        obtain ⟨h3, h3'⟩ := ih xs (b :: ys) (by simp; omega)
        rw [lev_cons_cons]
        by_cases hab : a = b
        · simp only [if_pos hab, List.length_cons]
          omega
        · simp only [if_neg hab, List.length_cons] at *
          omega

theorem lev_length (xs ys : List Char) :
    ys.length ≤ lev xs ys + xs.length ∧ xs.length ≤ lev xs ys + ys.length :=
  lev_length_aux (xs.length + ys.length) xs ys le_rfl

theorem lev_symm_aux :
    ∀ n, ∀ xs ys : List Char, xs.length + ys.length ≤ n → lev xs ys = lev ys xs := by
  intro n
  induction n with
  | zero =>
    intro xs ys h
    have hx : xs.length = 0 := by omega
    have hy : ys.length = 0 := by omega
    rw [List.length_eq_zero] at hx hy
    subst hx; subst hy; rfl
  | succ n ih =>
    intro xs ys h
    cases xs with
    | nil => rw [lev_nil_left, lev_nil_right]
    | cons a xs =>
      cases ys with
      | nil => rw [lev_nil_left, lev_nil_right]
      | cons b ys =>
        simp only [List.length_cons] at h
        rw [lev_cons_cons, lev_cons_cons]
        have e1 := ih xs ys (by omega)
        have e2 := ih (a :: xs) ys (by simp; omega)
        have e3 := ih xs (b :: ys) (by simp; omega)
        rcases eq_or_ne a b with rfl | hab
        · rw [if_pos rfl, if_pos rfl, e1]
        · rw [if_neg hab, if_neg (Ne.symm hab), e1, e2, e3]
          omega

theorem lev_symm (xs ys : List Char) : lev xs ys = lev ys xs :=
  lev_symm_aux (xs.length + ys.length) xs ys le_rfl

theorem lev_adj_aux :
    ∀ n, ∀ xs ys : List Char, xs.length + ys.length ≤ n →
      (∀ x, lev xs ys ≤ 1 + lev (x :: xs) ys) ∧
      (∀ y, lev xs ys ≤ 1 + lev xs (y :: ys)) ∧
      (∀ x, lev (x :: xs) ys ≤ 1 + lev xs ys) ∧
      (∀ y, lev xs (y :: ys) ≤ 1 + lev xs ys) := by
  intro n
  induction n with
  | zero =>
    intro xs ys h
    have hx : xs.length = 0 := by omega
    have hy : ys.length = 0 := by omega
    rw [List.length_eq_zero] at hx hy
    subst hx; subst hy
    refine ⟨fun x => ?_, fun y => ?_, fun x => ?_, fun y => ?_⟩ <;>
      simp [lev_nil_left, lev_nil_right]
  | succ n ih =>
    intro xs ys h
    cases xs with
    | nil =>
      cases ys with
      | nil =>
        refine ⟨fun x => ?_, fun y => ?_, fun x => ?_, fun y => ?_⟩ <;>
          simp [lev_nil_left, lev_nil_right]
      | cons b ys =>
        refine ⟨fun x => ?_, fun y => ?_, fun x => ?_, fun y => ?_⟩
        · rw [lev_nil_left, lev_cons_cons x b [] ys]
          by_cases hxb : x = b
          · rw [if_pos hxb, lev_nil_left]
            simp only [List.length_cons]
            omega
          · rw [if_neg hxb, lev_nil_left, lev_nil_left]
            have hK := (lev_length [x] ys).1
            simp only [List.length_cons, List.length_nil] at hK ⊢
            omega
        · rw [lev_nil_left, lev_nil_left]
          simp only [List.length_cons]
          omega
        · rw [lev_cons_cons x b [] ys, lev_nil_left]
          by_cases hxb : x = b
          · rw [if_pos hxb, lev_nil_left]
            simp only [List.length_cons]
            omega
          · rw [if_neg hxb, lev_nil_left]
            simp only [List.length_cons]
            omega
        · rw [lev_nil_left, lev_nil_left]
          simp only [List.length_cons]
          omega
    | cons a xs =>
      cases ys with
      | nil =>
        refine ⟨fun x => ?_, fun y => ?_, fun x => ?_, fun y => ?_⟩
        · rw [lev_nil_right, lev_nil_right]
          simp only [List.length_cons]
          omega
        · rw [lev_nil_right, lev_cons_cons a y xs []]
          by_cases hay : a = y
          · rw [if_pos hay, lev_nil_right]
            simp only [List.length_cons]
            omega
          · rw [if_neg hay, lev_nil_right, lev_nil_right]
            have hK := (lev_length xs [y]).2
            simp only [List.length_cons, List.length_nil] at hK ⊢
            omega
        · rw [lev_nil_right, lev_nil_right]
          simp only [List.length_cons]
          omega
        · rw [lev_cons_cons a y xs [], lev_nil_right]
          by_cases hay : a = y
          · rw [if_pos hay, lev_nil_right]
            simp only [List.length_cons]
            omega
          · rw [if_neg hay, lev_nil_right]
            simp only [List.length_cons]
            omega
      | cons b ys =>
        simp only [List.length_cons] at h
        obtain ⟨ihL1, ihL2, ihL3, ihL4⟩ := ih (a :: xs) ys (by simp; omega)
        obtain ⟨ihR1, ihR2, ihR3, ihR4⟩ := ih xs (b :: ys) (by simp; omega)
        refine ⟨fun x => ?_, fun y => ?_, fun x => ?_, fun y => ?_⟩
        · rw [lev_cons_cons x b (a :: xs) ys]
          by_cases hxb : x = b
          · rw [if_pos hxb]
            exact ihL4 b
          · rw [if_neg hxb]
            have h1 := ihL4 b
            have h2 := ihL1 x
            omega
        · rw [lev_cons_cons a y xs (b :: ys)]
          by_cases hay : a = y
          · rw [if_pos hay]
            exact ihR3 a
          · rw [if_neg hay]
            have h1 := ihR3 a
            have h2 := ihR2 y
            omega
        · rw [lev_cons_cons x b (a :: xs) ys]
          by_cases hxb : x = b
          · rw [if_pos hxb]
            exact ihL2 b
          · rw [if_neg hxb]
            omega
        · rw [lev_cons_cons a y xs (b :: ys)]
          by_cases hay : a = y
          · rw [if_pos hay]
            exact ihR1 a
          · rw [if_neg hay]
            omega

theorem lev_adj (xs ys : List Char) :
    (∀ x, lev xs ys ≤ 1 + lev (x :: xs) ys) ∧
    (∀ y, lev xs ys ≤ 1 + lev xs (y :: ys)) ∧
    (∀ x, lev (x :: xs) ys ≤ 1 + lev xs ys) ∧
    (∀ y, lev xs (y :: ys) ≤ 1 + lev xs ys) :=
  lev_adj_aux (xs.length + ys.length) xs ys le_rfl

theorem levenshtein_default_nil_left (ys : List Char) :
    levenshtein Levenshtein.defaultCost [] ys = ys.length := by
  induction ys with
  | nil => simp [levenshtein_nil_nil]
  | cons y ys ih => simp [levenshtein_nil_cons, ih]; omega

theorem levenshtein_default_nil_right (xs : List Char) :
    levenshtein Levenshtein.defaultCost xs [] = xs.length := by
  induction xs with
  | nil => simp [levenshtein_nil_nil]
  | cons x xs ih => simp [levenshtein_cons_nil, ih]; omega

theorem lev_eq_levenshtein_aux :
    ∀ n, ∀ xs ys : List Char, xs.length + ys.length ≤ n →
      lev xs ys = levenshtein Levenshtein.defaultCost xs ys := by
  intro n
  induction n with
  | zero =>
    intro xs ys h
    have hx : xs.length = 0 := by omega
    have hy : ys.length = 0 := by omega
    rw [List.length_eq_zero] at hx hy
    subst hx; subst hy
    rw [lev_nil_left, levenshtein_default_nil_left]
  | succ n ih =>
    intro xs ys h
    cases xs with
    | nil => rw [lev_nil_left, levenshtein_default_nil_left]
    | cons a xs =>
      cases ys with
      | nil => rw [lev_nil_right, levenshtein_default_nil_right]
      | cons b ys =>
        simp only [List.length_cons] at h
        rw [lev_cons_cons, levenshtein_cons_cons]
        have e1 := ih xs ys (by omega)
        have e2 := ih (a :: xs) ys (by simp; omega)
        have e3 := ih xs (b :: ys) (by simp; omega)
        simp only [Levenshtein.defaultCost_delete, Levenshtein.defaultCost_insert,
          Levenshtein.defaultCost_substitute, ← e1, ← e2, ← e3]
        rcases eq_or_ne a b with rfl | hab
        · rw [if_pos rfl, if_pos rfl]
          have h1 := ((lev_adj xs ys).1 a)
          have h2 := ((lev_adj xs ys).2.1 a)
          omega
        · rw [if_neg hab, if_neg hab]
          omega

theorem lev_eq_levenshtein (xs ys : List Char) :
    lev xs ys = levenshtein Levenshtein.defaultCost xs ys :=
  lev_eq_levenshtein_aux (xs.length + ys.length) xs ys le_rfl

theorem min3_le_1 (a b c : Nat) : min a (min b c) ≤ a := min_le_left _ _

theorem min3_le_2 (a b c : Nat) : min a (min b c) ≤ b :=
  (min_le_right _ _).trans (min_le_left _ _)

theorem min3_le_3 (a b c : Nat) : min a (min b c) ≤ c :=
  (min_le_right _ _).trans (min_le_right _ _)

theorem min9_regroup (A B C D E F G H I : Nat) :
    min (min A (min B C)) (min (min D (min F H)) (min E (min G I))) =
    min (min A (min D E)) (min (min B (min F G)) (min C (min H I))) := by
  apply le_antisymm
  · exact le_min
      (le_min ((min3_le_1 _ _ _).trans (min3_le_1 _ _ _))
        (le_min ((min3_le_2 _ _ _).trans (min3_le_1 _ _ _))
          ((min3_le_3 _ _ _).trans (min3_le_1 _ _ _))))
      (le_min
        (le_min ((min3_le_1 _ _ _).trans (min3_le_2 _ _ _))
          (le_min ((min3_le_2 _ _ _).trans (min3_le_2 _ _ _))
            ((min3_le_3 _ _ _).trans (min3_le_2 _ _ _))))
        (le_min ((min3_le_1 _ _ _).trans (min3_le_3 _ _ _))
          (le_min ((min3_le_2 _ _ _).trans (min3_le_3 _ _ _))
            ((min3_le_3 _ _ _).trans (min3_le_3 _ _ _)))))
  · exact le_min
      (le_min ((min3_le_1 _ _ _).trans (min3_le_1 _ _ _))
        (le_min ((min3_le_2 _ _ _).trans (min3_le_1 _ _ _))
          ((min3_le_3 _ _ _).trans (min3_le_1 _ _ _))))
      (le_min
        (le_min ((min3_le_1 _ _ _).trans (min3_le_2 _ _ _))
          (le_min ((min3_le_2 _ _ _).trans (min3_le_2 _ _ _))
            ((min3_le_3 _ _ _).trans (min3_le_2 _ _ _))))
        (le_min ((min3_le_1 _ _ _).trans (min3_le_3 _ _ _))
          (le_min ((min3_le_2 _ _ _).trans (min3_le_3 _ _ _))
            ((min3_le_3 _ _ _).trans (min3_le_3 _ _ _)))))


theorem lev_append_aux :
    ∀ n, ∀ (xs ys : List Char) (x y : Char), xs.length + ys.length ≤ n →
      lev (xs ++ [x]) (ys ++ [y]) =
        if x = y then lev xs ys
        else 1 + min (lev xs ys) (min (lev (xs ++ [x]) ys) (lev xs (ys ++ [y]))) := by
  intro n
  induction n with
  | zero =>
    intro xs ys x y h
    have hx : xs.length = 0 := by omega
    have hy : ys.length = 0 := by omega
    rw [List.length_eq_zero] at hx hy
    subst hx; subst hy
    simp only [List.nil_append]
    rw [lev_cons_cons]
  | succ n ih =>
    intro xs ys x y h
    cases xs with
    | nil =>
      cases ys with
      | nil =>
        simp only [List.nil_append]
        rw [lev_cons_cons]
      | cons b ys =>
        simp only [List.nil_append, List.cons_append] at h ⊢
        have IH1 := ih [] ys x y (by simp at h ⊢; omega)
        simp only [List.nil_append] at IH1
        rw [lev_cons_cons x b [] (ys ++ [y]), IH1, lev_cons_cons x b [] ys]
        simp only [lev_nil_left, List.length_append, List.length_cons, List.length_nil]
        split_ifs <;> omega
    | cons a xs =>
      cases ys with
      | nil =>
        simp only [List.nil_append, List.cons_append] at h ⊢
        have IH1 := ih xs [] x y (by simp at h ⊢; omega)
        simp only [List.nil_append] at IH1
        rw [lev_cons_cons a y (xs ++ [x]) [], IH1, lev_cons_cons a y xs []]
        simp only [lev_nil_right, List.length_append, List.length_cons, List.length_nil]
        split_ifs <;> omega
      | cons b ys =>
        simp only [List.length_cons] at h
        have IH1 := ih xs ys x y (by omega)
        have IH2 := ih (a :: xs) ys x y (by simp; omega)
        have IH3 := ih xs (b :: ys) x y (by simp; omega)
        simp only [List.cons_append] at IH2 IH3 ⊢
        rcases eq_or_ne a b with rfl | hab
        · rcases eq_or_ne x y with rfl | hxy
          · rw [if_pos rfl] at IH1
            rw [lev_cons_cons a a (xs ++ [x]) (ys ++ [x]), if_pos rfl, IH1,
              if_pos rfl, lev_cons_cons a a xs ys, if_pos rfl]
          · rw [if_neg hxy] at IH1
            rw [lev_cons_cons a a (xs ++ [x]) (ys ++ [y]), if_pos rfl, IH1,
              if_neg hxy, lev_cons_cons a a xs ys, if_pos rfl,
              lev_cons_cons a a (xs ++ [x]) ys, if_pos rfl,
              lev_cons_cons a a xs (ys ++ [y]), if_pos rfl]
        · rcases eq_or_ne x y with rfl | hxy
          · rw [if_pos rfl] at IH1 IH2 IH3
            rw [lev_cons_cons a b (xs ++ [x]) (ys ++ [x]), if_neg hab, IH1, IH2, IH3,
              if_pos rfl, lev_cons_cons a b xs ys, if_neg hab]
          · rw [if_neg hxy] at IH1 IH2 IH3
            have R1 : lev (a :: xs) (b :: ys) =
                1 + min (lev xs ys) (min (lev (a :: xs) ys) (lev xs (b :: ys))) := by
              rw [lev_cons_cons, if_neg hab]
            have R2 : lev (a :: (xs ++ [x])) (b :: ys) =
                1 + min (lev (xs ++ [x]) ys)
                  (min (lev (a :: (xs ++ [x])) ys) (lev (xs ++ [x]) (b :: ys))) := by
              rw [lev_cons_cons, if_neg hab]
            have R3 : lev (a :: xs) (b :: (ys ++ [y])) =
                1 + min (lev xs (ys ++ [y]))
                  (min (lev (a :: xs) (ys ++ [y])) (lev xs (b :: (ys ++ [y])))) := by
              rw [lev_cons_cons, if_neg hab]
            rw [lev_cons_cons a b (xs ++ [x]) (ys ++ [y]), if_neg hab, IH1, IH2, IH3,
              if_neg hxy, R1, R2, R3]
            simp only [min_add_add_left]
            rw [min9_regroup]

theorem lev_append (xs ys : List Char) (x y : Char) :
    lev (xs ++ [x]) (ys ++ [y]) =
      if x = y then lev xs ys
      else 1 + min (lev xs ys) (min (lev (xs ++ [x]) ys) (lev xs (ys ++ [y]))) :=
  lev_append_aux (xs.length + ys.length) xs ys x y le_rfl

theorem levEntry_zero (l1 l2 : List Char) (j : Nat) : levEntry l1 l2 0 j = j := rfl

theorem levEntry_succ_zero (l1 l2 : List Char) (i : Nat) :
    levEntry l1 l2 (i + 1) 0 = i + 1 := rfl

theorem levEntry_succ_succ (l1 l2 : List Char) (i j : Nat) :
    levEntry l1 l2 (i + 1) (j + 1) =
      if l2.get? i = l1.get? j then levEntry l1 l2 i j
      else
        min (levEntry l1 l2 i j + 1)
          (min (levEntry l1 l2 (i + 1) j + 1) (levEntry l1 l2 i (j + 1) + 1)) := rfl

theorem levEntry_eq_aux :
    ∀ n, ∀ (l1 l2 : List Char) (i j : Nat), i + j ≤ n → i ≤ l2.length → j ≤ l1.length →
      levEntry l1 l2 i j = lev (l1.take j) (l2.take i) := by
  intro n
  induction n with
  | zero =>
    intro l1 l2 i j h hi hj
    have : i = 0 := by omega
    subst this
    have : j = 0 := by omega
    subst this
    simp [levEntry_zero, lev_nil_left]
  | succ n ih =>
    intro l1 l2 i j h hi hj
    cases i with
    | zero =>
      rw [levEntry_zero, List.take_zero, lev_nil_right, List.length_take]
      omega
    | succ i =>
      cases j with
      | zero =>
        rw [levEntry_succ_zero, List.take_zero, lev_nil_left, List.length_take]
        omega
      | succ j =>
        have hi' : i < l2.length := by omega
        have hj' : j < l1.length := by omega
        obtain ⟨c2, hc2⟩ : ∃ c, l2[i]? = some c :=
          ⟨l2[i], List.getElem?_eq_getElem hi'⟩
        obtain ⟨c1, hc1⟩ : ∃ c, l1[j]? = some c :=
          ⟨l1[j], List.getElem?_eq_getElem hj'⟩
        have hc2g : l2.get? i = some c2 := by
          rw [List.get?_eq_getElem?, hc2]
        have hc1g : l1.get? j = some c1 := by
          rw [List.get?_eq_getElem?, hc1]
        have ht1 : l1.take (j + 1) = l1.take j ++ [c1] := by
          rw [List.take_succ, hc1]
          rfl
        have ht2 : l2.take (i + 1) = l2.take i ++ [c2] := by
          rw [List.take_succ, hc2]
          rfl
        have key := lev_append (l1.take j) (l2.take i) c1 c2
        have e1 := ih l1 l2 i j (by omega) (by omega) (by omega)
        have e2 := ih l1 l2 (i + 1) j (by omega) (by omega) (by omega)
        have e3 := ih l1 l2 i (j + 1) (by omega) (by omega) (by omega)
        rw [levEntry_succ_succ, hc1g, hc2g, ht1, ht2, key, e1, e2, e3, ht2] at *
        by_cases hcc : c1 = c2
        · rw [if_pos (by rw [hcc]), if_pos hcc]
        · rw [if_neg (by simp [Ne.symm hcc]), if_neg hcc]
          rw [ht1]
          omega

theorem levEntry_eq (l1 l2 : List Char) (i j : Nat) (hi : i ≤ l2.length)
    (hj : j ≤ l1.length) : levEntry l1 l2 i j = lev (l1.take j) (l2.take i) :=
  levEntry_eq_aux (i + j) l1 l2 i j le_rfl hi hj

theorem levenshteinDistance_eq_lev (str1 str2 : String) :
    levenshteinDistance str1 str2 = lev str1.data str2.data := by
  rw [levenshteinDistance, levEntry_eq str1.data str2.data _ _ le_rfl le_rfl,
    List.take_length, List.take_length]

theorem containsStr_empty (s : String) : containsStr s "" = true := by
  simp [containsStr]

theorem startsWithStr_empty (s : String) : startsWithStr s "" = true := by
  show List.isPrefixOf [] s.data = true
  cases s.data <;> rfl

theorem scoreShop_shop (q : String) (shop : Shop) : (scoreShop q shop).shop = shop := rfl

theorem scoreShop_score (q : String) (shop : Shop) :
    (scoreShop q shop).score =
      if nameTierScore q (toLowerStr shop.name) +
          descBonus q (toLowerStr (shop.description.getD "")) +
          addrBonus q (toLowerStr (shop.address.getD "")) = 0 then
        (nameTierScore q (toLowerStr shop.name) +
          descBonus q (toLowerStr (shop.description.getD "")) +
          addrBonus q (toLowerStr (shop.address.getD ""))) +
          fallbackAward q (toLowerStr shop.name)
      else
        nameTierScore q (toLowerStr shop.name) +
          descBonus q (toLowerStr (shop.description.getD "")) +
          addrBonus q (toLowerStr (shop.address.getD "")) := rfl

theorem nameTierScore_values (q name : String) :
    nameTierScore q name = 0 ∨ nameTierScore q name = 40 ∨ nameTierScore q name = 60 ∨
      nameTierScore q name = 80 ∨ nameTierScore q name = 100 := by
  rw [nameTierScore]
  split_ifs <;> simp

theorem ratio_le_one (L d : Nat) (h : ¬ L = 0) : ((L : ℚ) - (d : ℚ)) / (L : ℚ) ≤ 1 := by
  rw [div_le_one (by exact_mod_cast Nat.pos_of_ne_zero h)]
  have : (0 : ℚ) ≤ (d : ℚ) := by positivity
  linarith

theorem calculateSimilarity_le_one (q name : String) : calculateSimilarity q name ≤ 1 := by
  rw [calculateSimilarity]
  split_ifs with h1 h2 h3
  · norm_num
  · exact ratio_le_one _ _ h2
  · norm_num
  · exact ratio_le_one _ _ h3

theorem fallbackAward_le (q name : String) : fallbackAward q name ≤ 30 := by
  rw [fallbackAward]
  split_ifs with h
  · have hs := calculateSimilarity_le_one q name
    have h30 : mathRound (calculateSimilarity q name * 30) ≤ ((30 : Nat) : ℤ) := by
      rw [mathRound, Int.floor_le_iff]
      push_cast
      linarith
    exact Int.toNat_le.mpr h30
  · omega

theorem scoreShop_empty_query (shop : Shop) :
    (scoreShop "" shop).score = if toLowerStr shop.name = "" then 130 else 110 := by
  have h1 := startsWithStr_empty (toLowerStr shop.name)
  have h2 := containsStr_empty (toLowerStr (shop.description.getD ""))
  have h3 := containsStr_empty (toLowerStr (shop.address.getD ""))
  by_cases hn : toLowerStr shop.name = "" <;>
    simp [scoreShop, nameTierScore, descBonus, addrBonus, h1, h2, h3, hn]

theorem insertScored_perm (x : ScoredShop) (l : List ScoredShop) :
    (insertScored x l).Perm (x :: l) := by
  induction l with
  | nil => exact List.Perm.refl _
  | cons y ys ih =>
    rw [insertScored]
    split_ifs with h
    · exact List.Perm.refl _
    · exact (ih.cons y).trans (List.Perm.swap x y ys)

theorem sortByScoreDesc_perm (l : List ScoredShop) : (sortByScoreDesc l).Perm l := by
  induction l with
  | nil => exact List.Perm.refl _
  | cons x xs ih =>
    rw [sortByScoreDesc]
    exact (insertScored_perm x (sortByScoreDesc xs)).trans (ih.cons x)

theorem insertScored_sorted (x : ScoredShop) (l : List ScoredShop)
    (h : l.Pairwise (fun a b => b.score ≤ a.score)) :
    (insertScored x l).Pairwise (fun a b => b.score ≤ a.score) := by
  induction l with
  | nil => simp [insertScored]
  | cons y ys ih =>
    rw [insertScored]
    rw [List.pairwise_cons] at h
    split_ifs with hyx
    · refine List.pairwise_cons.mpr ⟨?_, List.pairwise_cons.mpr h⟩
      intro z hz
      rcases List.mem_cons.mp hz with rfl | hz'
      · exact hyx
      · exact le_trans (h.1 z hz') hyx
    · refine List.pairwise_cons.mpr ⟨?_, ih h.2⟩
      intro z hz
      have : z ∈ x :: ys := (insertScored_perm x ys).subset hz
      rcases List.mem_cons.mp this with rfl | hz'
      · omega
      · exact h.1 z hz'

theorem sortByScoreDesc_sorted (l : List ScoredShop) :
    (sortByScoreDesc l).Pairwise (fun a b => b.score ≤ a.score) := by
  induction l with
  | nil => simp [sortByScoreDesc]
  | cons x xs ih => exact insertScored_sorted x _ ih

theorem insertScored_filter (x : ScoredShop) (l : List ScoredShop) (n : Nat) :
    (insertScored x l).filter (fun s => s.score == n) =
      if x.score = n then x :: l.filter (fun s => s.score == n)
      else l.filter (fun s => s.score == n) := by
  induction l with
  | nil =>
    by_cases hx : x.score = n
    · rw [if_pos hx]
      simp [insertScored, List.filter_cons, hx]
    · rw [if_neg hx]
      simp [insertScored, List.filter_cons, beq_iff_eq, hx]
  | cons y ys ih =>
    rw [insertScored]
    by_cases hyx : y.score ≤ x.score
    · rw [if_pos hyx]
      by_cases hx : x.score = n
      · rw [if_pos hx]
        simp [List.filter_cons, hx]
      · rw [if_neg hx]
        simp [List.filter_cons, beq_iff_eq, hx]
    · rw [if_neg hyx]
      by_cases hy : y.score = n
      · have hx : ¬ x.score = n := by omega
        rw [if_neg hx]
        simp [List.filter_cons, beq_iff_eq, hy, hx, ih]
      · by_cases hx : x.score = n
        · rw [if_pos hx]
          simp [List.filter_cons, beq_iff_eq, hy, hx, ih]
        · rw [if_neg hx]
          simp [List.filter_cons, beq_iff_eq, hy, hx, ih]

theorem sortByScoreDesc_stable (l : List ScoredShop) (n : Nat) :
    (sortByScoreDesc l).filter (fun s => s.score == n) =
      l.filter (fun s => s.score == n) := by
  induction l with
  | nil => rfl
  | cons x xs ih =>
    rw [sortByScoreDesc, insertScored_filter]
    by_cases hx : x.score = n
    · rw [if_pos hx]
      simp [List.filter_cons, beq_iff_eq, hx, ih]
    · rw [if_neg hx]
      simp [List.filter_cons, beq_iff_eq, hx, ih]

/-- Claim C1, counterexample: rule 3 in the code splits the name on the
space character only, not on arbitrary whitespace.  For the query `"brew"`
and the name `"cold\tbrew"` (a tab), the whitespace-delimited reading of the
claim awards the word-start tier `60`, but the code awards the substring tier
`40`. -/
theorem c1_space_vs_whitespace_counterexample :
    claimedNameTierScore "brew" "cold\tbrew" = 60 ∧
    nameTierScore "brew" "cold\tbrew" = 40 ∧
    (scoreShop "brew" ⟨"3", "cold\tbrew", none, none, "", 0, true⟩).score = 40 :=
  ⟨by decide, by decide, by decide⟩

/-- Claim C1 (amended): with words delimited by the space character (as
`name.split(' ')` produces), the name tier is awarded by exactly the single
highest-priority applicable rule (+100 exact, else +80 prefix, else +60 word
start, else +40 substring, else 0); the description/address bonuses are
additive on top of a nonzero name tier; and with equal bonuses a candidate
with a strictly higher name tier always scores strictly higher. -/
theorem c1_name_tier_exclusive_and_ordering :
    (∀ q name : String,
      (name = q → nameTierScore q name = 100) ∧
      (name ≠ q → startsWithStr name q = true → nameTierScore q name = 80) ∧
      (name ≠ q → startsWithStr name q = false →
        (nameWords name).any (fun w => List.isPrefixOf q.data w) = true →
        nameTierScore q name = 60) ∧
      (name ≠ q → startsWithStr name q = false →
        (nameWords name).any (fun w => List.isPrefixOf q.data w) = false →
        containsStr name q = true → nameTierScore q name = 40) ∧
      (name ≠ q → startsWithStr name q = false →
        (nameWords name).any (fun w => List.isPrefixOf q.data w) = false →
        containsStr name q = false → nameTierScore q name = 0)) ∧
    (∀ (q : String) (shop : Shop), nameTierScore q (toLowerStr shop.name) ≠ 0 →
      (scoreShop q shop).score =
        nameTierScore q (toLowerStr shop.name) +
          descBonus q (toLowerStr (shop.description.getD "")) +
          addrBonus q (toLowerStr (shop.address.getD ""))) ∧
    (∀ (q : String) (shopA shopB : Shop),
      descBonus q (toLowerStr (shopA.description.getD "")) =
        descBonus q (toLowerStr (shopB.description.getD "")) →
      addrBonus q (toLowerStr (shopA.address.getD "")) =
        addrBonus q (toLowerStr (shopB.address.getD "")) →
      nameTierScore q (toLowerStr shopB.name) ≠ 0 →
      nameTierScore q (toLowerStr shopB.name) < nameTierScore q (toLowerStr shopA.name) →
      (scoreShop q shopB).score < (scoreShop q shopA).score) := by
  refine ⟨?_, ?_, ?_⟩
  · intro q name
    refine ⟨?_, ?_, ?_, ?_, ?_⟩ <;> intros <;> simp [nameTierScore, *]
  · intro q shop h
    rw [scoreShop_score, if_neg (by omega)]
  · intro q shopA shopB hd ha hB htier
    rw [scoreShop_score, scoreShop_score, hd, ha]
    have h30 := fallbackAward_le q (toLowerStr shopB.name)
    split_ifs <;> omega

/-- Claim C1 witness: for the query `"moon"`, an exact-match candidate
outranks a prefix-match candidate with identical (empty) bonuses. -/
theorem c1_witness :
    (scoreShop "moon" ⟨"B", "moonbean", none, none, "", 0, true⟩).score <
      (scoreShop "moon" ⟨"A", "moon", none, none, "", 0, true⟩).score :=
  c1_name_tier_exclusive_and_ordering.2.2 "moon" _ _ rfl rfl (by decide) (by decide)

/-- Claim C2, counterexample: for the query `"urb"` and the candidate named
`"urn"` with description `"urb stand"`, the name tier is 0 and the similarity
fallback would award 20 points, yet the score is only the description bonus
20 (not 40): the fallback check `score === 0` looks at the bonus-inclusive
total, so a description match suppresses the fallback. -/
theorem c2_fallback_condition_counterexample :
    nameTierScore "urb" (toLowerStr "urn") = 0 ∧
    descBonus "urb" (toLowerStr ((some "urb stand").getD "")) = 20 ∧
    fallbackAward "urb" (toLowerStr "urn") = 20 ∧
    (scoreShop "urb" ⟨"1", "urn", some "urb stand", none, "", 0, true⟩).score = 20 ∧
    (scoreShop "urb" ⟨"1", "urn", some "urb stand", none, "", 0, true⟩).score ≠ 40 := by
  have h1 : toLowerStr "urn" = "urn" := by decide
  have hsim : calculateSimilarity "urb" "urn" = ((3 : ℚ) - 1) / 3 := rfl
  refine ⟨by decide, by decide, ?_, by decide, by decide⟩
  simp only [fallbackAward, h1, hsim]
  rw [if_pos (by norm_num)]
  norm_num [mathRound]
  decide

/-- Claim C2 (amended): the Levenshtein fallback fires exactly when the total
score after the name tier and the description/address bonuses is 0 — i.e.
when the name tier is 0 AND neither the description nor the address contains
the query; when it fires, it contributes the whole score. -/
theorem c2_fallback_fires_iff_total_zero :
    ∀ (q : String) (shop : Shop),
      ((scoreShop q shop).score =
        if nameTierScore q (toLowerStr shop.name) +
            descBonus q (toLowerStr (shop.description.getD "")) +
            addrBonus q (toLowerStr (shop.address.getD "")) = 0 then
          fallbackAward q (toLowerStr shop.name)
        else
          nameTierScore q (toLowerStr shop.name) +
            descBonus q (toLowerStr (shop.description.getD "")) +
            addrBonus q (toLowerStr (shop.address.getD ""))) ∧
      (nameTierScore q (toLowerStr shop.name) +
          descBonus q (toLowerStr (shop.description.getD "")) +
          addrBonus q (toLowerStr (shop.address.getD "")) = 0 ↔
        nameTierScore q (toLowerStr shop.name) = 0 ∧
          descBonus q (toLowerStr (shop.description.getD "")) = 0 ∧
          addrBonus q (toLowerStr (shop.address.getD "")) = 0) := by
  intro q shop
  constructor
  · rw [scoreShop_score]
    split_ifs with h
    · omega
    · rfl
  · omega

/-- Claim C3: the returned shop list is exactly the positively-scored
candidates, stably sorted by descending score, truncated to 10: the sorted
pool is a permutation of the filtered pool, it is sorted non-increasingly by
score, and every equal-score slice keeps the candidates' input order. -/
theorem c3_ranking_filter_sort_truncate :
    ∀ (q : String) (shops : List Shop),
      (performLocalSearch q shops).shops =
        (sortByScoreDesc (rankedPool q shops)).take 10 ∧
      (sortByScoreDesc (rankedPool q shops)).Perm (rankedPool q shops) ∧
      (sortByScoreDesc (rankedPool q shops)).Pairwise
        (fun a b => b.score ≤ a.score) ∧
      ∀ n, (sortByScoreDesc (rankedPool q shops)).filter (fun s => s.score == n) =
        (rankedPool q shops).filter (fun s => s.score == n) := by
  intro q shops
  exact ⟨rfl, sortByScoreDesc_perm _, sortByScoreDesc_sorted _,
    fun n => sortByScoreDesc_stable _ n⟩

/-- Claim C4: the code's dynamic-programming `levenshteinDistance` computes
the classic Levenshtein edit distance (Mathlib's `levenshtein` with unit
delete/insert/substitute costs); the fallback similarity is
`(max_len - distance) / max_len` over the query and the name whenever the
two strings are not both empty; and the award is `round(similarity * 30)`
exactly when the similarity exceeds `0.6`. -/
theorem c4_levenshtein_classic_similarity :
    (∀ s1 s2 : String, levenshteinDistance s1 s2 =
        levenshtein Levenshtein.defaultCost s1.data s2.data) ∧
    (∀ q name : String, 0 < max q.data.length name.data.length →
      calculateSimilarity q name =
        (((max q.data.length name.data.length : ℕ) : ℚ) -
          ((levenshtein Levenshtein.defaultCost q.data name.data : ℕ) : ℚ)) /
          ((max q.data.length name.data.length : ℕ) : ℚ)) ∧
    (∀ q name : String,
      (3 / 5 < calculateSimilarity q name →
        fallbackAward q name = (mathRound (calculateSimilarity q name * 30)).toNat) ∧
      (¬ 3 / 5 < calculateSimilarity q name → fallbackAward q name = 0)) := by
  refine ⟨?_, ?_, ?_⟩
  · intro s1 s2
    exact (levenshteinDistance_eq_lev s1 s2).trans (lev_eq_levenshtein _ _)
  · intro q name h
    rw [calculateSimilarity]
    by_cases hl : q.data.length > name.data.length
    · have hmax : max q.data.length name.data.length = q.data.length :=
        max_eq_left (le_of_lt hl)
      have hq0 : ¬ q.data.length = 0 := by omega
      simp only [if_pos hl]
      rw [if_neg hq0, hmax, levenshteinDistance_eq_lev, lev_eq_levenshtein]
    · have hle : q.data.length ≤ name.data.length := le_of_not_lt hl
      have hmax : max q.data.length name.data.length = name.data.length :=
        max_eq_right hle
      have hn0 : ¬ name.data.length = 0 := by
        rw [hmax] at h
        omega
      simp only [if_neg hl]
      rw [if_neg hn0, hmax, levenshteinDistance_eq_lev, lev_symm,
        lev_eq_levenshtein]
  · intro q name
    constructor
    · intro h
      simp only [fallbackAward]
      rw [if_pos h]
    · intro h
      simp only [fallbackAward]
      rw [if_neg h]

/-- Claim C4 witness: the similarity formula instantiated at `"ab"` and
`"b"`. -/
theorem c4_witness :
    calculateSimilarity "ab" "b" =
      (((max "ab".data.length "b".data.length : ℕ) : ℚ) -
        ((levenshtein Levenshtein.defaultCost "ab".data "b".data : ℕ) : ℚ)) /
        ((max "ab".data.length "b".data.length : ℕ) : ℚ) :=
  c4_levenshtein_classic_similarity.2.1 "ab" "b" (by decide)

/-- Claim C5, counterexample: the whitespace-only query `" "` does not yield
an empty result set: `performLocalSearch` has no empty-query guard, the
normalized query becomes `""`, the sole candidate matches the prefix rule of
the empty string plus both bonuses (total 110), and all popular suggestions
match. -/
theorem c5_whitespace_query_counterexample :
    (performLocalSearch " " [⟨"0", "a", none, none, "", 0, true⟩]).shops =
      [⟨⟨"0", "a", none, none, "", 0, true⟩, 110⟩] ∧
    (performLocalSearch " " [⟨"0", "a", none, none, "", 0, true⟩]).suggestions =
      ["Latte", "Espresso", "Cold Brew", "Matcha", "Cappuccino"] := by
  decide

/-- Claim C5 (amended): only the caller `handleSearch` short-circuits, and
only for the raw query of length 0; `performLocalSearch` itself applies no
empty-query guard: whenever the trimmed lower-cased query is empty, every
candidate is scored (110, or 130 for an empty name), `min 10 n` shops are
returned, and the suggestions are the first five popular entries. -/
theorem c5_empty_query_behaviour :
    (∀ q : String, q.data.length = 0 → handleSearchGuard q = some ⟨[], [], []⟩) ∧
    (∀ q : String, q.data.length ≠ 0 → handleSearchGuard q = none) ∧
    (∀ (q : String) (shops : List Shop), trimStr (toLowerStr q) = "" →
      (performLocalSearch q shops).suggestions =
        ["Latte", "Espresso", "Cold Brew", "Matcha", "Cappuccino"] ∧
      (performLocalSearch q shops).shops.length = min 10 shops.length ∧
      ∀ s, s ∈ (performLocalSearch q shops).shops → s.score = 110 ∨ s.score = 130) := by
  refine ⟨?_, ?_, ?_⟩
  · intro q h
    rw [handleSearchGuard, if_pos h]
  · intro q h
    rw [handleSearchGuard, if_neg h]
  · intro q shops h
    have hpool : rankedPool q shops = shops.map (scoreShop "") := by
      rw [rankedPool, h]
      apply List.filter_eq_self.mpr
      intro s hs
      obtain ⟨x, hx, rfl⟩ := List.mem_map.mp hs
      have hsc := scoreShop_empty_query x
      simp only [decide_eq_true_eq]
      by_cases hn : toLowerStr x.name = ""
      · rw [if_pos hn] at hsc
        omega
      · rw [if_neg hn] at hsc
        omega
    refine ⟨?_, ?_, ?_⟩
    · have e : (performLocalSearch q shops).suggestions =
          (popularSearches.filter
            (fun p => containsStr (toLowerStr p) (trimStr (toLowerStr q)))).take 5 := rfl
      rw [e, h]
      decide
    · have e : (performLocalSearch q shops).shops =
          (sortByScoreDesc (rankedPool q shops)).take 10 := rfl
      rw [e, List.length_take, hpool, (sortByScoreDesc_perm _).length_eq,
        List.length_map]
    · intro s hs
      have h1 : s ∈ sortByScoreDesc (rankedPool q shops) := List.take_subset _ _ hs
      have h2 : s ∈ rankedPool q shops := (sortByScoreDesc_perm _).subset h1
      rw [hpool] at h2
      obtain ⟨x, hx, rfl⟩ := List.mem_map.mp h2
      have hsc := scoreShop_empty_query x
      by_cases hn : toLowerStr x.name = ""
      · rw [if_pos hn] at hsc
        exact Or.inr hsc
      · rw [if_neg hn] at hsc
        exact Or.inl hsc

/-- Claim C5 witness: the amended behaviour evaluated at the whitespace query
`" "` and a single candidate. -/
theorem c5_witness :
    (performLocalSearch " " [⟨"0", "a", none, none, "", 0, true⟩]).suggestions =
      ["Latte", "Espresso", "Cold Brew", "Matcha", "Cappuccino"] ∧
    (performLocalSearch " " [⟨"0", "a", none, none, "", 0, true⟩]).shops.length =
      min 10 [(⟨"0", "a", none, none, "", 0, true⟩ : Shop)].length := by
  obtain ⟨h1, h2, h3⟩ :=
    c5_empty_query_behaviour.2.2 " " [⟨"0", "a", none, none, "", 0, true⟩] (by decide)
  exact ⟨h1, h2⟩

/-- Claim C6: the ranker is a pure function of the query and candidate list:
repeated invocation returns the same value, and every returned shop record is
one of the caller's input records, unchanged. -/
theorem c6_ranker_pure :
    ∀ (q : String) (shops : List Shop),
      performLocalSearch q shops = performLocalSearch q shops ∧
      ∀ s, s ∈ (performLocalSearch q shops).shops → s.shop ∈ shops := by
  intro q shops
  refine ⟨rfl, ?_⟩
  intro s hs
  have h1 : s ∈ sortByScoreDesc (rankedPool q shops) := List.take_subset _ _ hs
  have h2 : s ∈ rankedPool q shops := (sortByScoreDesc_perm _).subset h1
  have h3 := List.mem_of_mem_filter h2
  obtain ⟨x, hx, rfl⟩ := List.mem_map.mp h3
  rw [scoreShop_shop]
  exact hx

/-- Claim C6 witness: a concrete returned record is the input record. -/
theorem c6_witness :
    (⟨⟨"1", "Moonbean Coffee", none, none, "", 0, true⟩, 80⟩ : ScoredShop).shop ∈
      [(⟨"1", "Moonbean Coffee", none, none, "", 0, true⟩ : Shop)] :=
  (c6_ranker_pure "moon" [⟨"1", "Moonbean Coffee", none, none, "", 0, true⟩]).2
    ⟨⟨"1", "Moonbean Coffee", none, none, "", 0, true⟩, 80⟩ (by decide)

/-- Claim C7, counterexample: suggestion inclusion is not "exactly when a
popular entry contains the query": for the query `"o"` eight entries match
but only the first five are returned — `"Croissant"` contains `"o"` yet is
not suggested. -/
theorem c7_suggestions_counterexample :
    containsStr (toLowerStr "Croissant") (trimStr (toLowerStr "o")) = true ∧
    "Croissant" ∈ popularSearches ∧
    "Croissant" ∉ (performLocalSearch "o" []).suggestions := by
  decide

/-- Claim C7 (amended): `menu_items` is always empty, at most 10 shops and at
most 5 suggestions are returned, and the suggestions are exactly the first
at-most-five entries of the static popular list that case-insensitively
contain the trimmed lower-cased query. -/
theorem c7_result_shape :
    ∀ (q : String) (shops : List Shop),
      (performLocalSearch q shops).menu_items = [] ∧
      (performLocalSearch q shops).shops.length ≤ 10 ∧
      (performLocalSearch q shops).suggestions.length ≤ 5 ∧
      (performLocalSearch q shops).suggestions =
        (popularSearches.filter
          (fun p => containsStr (toLowerStr p) (trimStr (toLowerStr q)))).take 5 := by
  intro q shops
  exact ⟨rfl, List.length_take_le _ _, List.length_take_le _ _, rfl⟩

/-- Claim C8: the ranker is total and defensively normalized: an empty
candidate list yields empty shops and menu items for every query, and a
missing description or address scores exactly like the empty string. -/
theorem c8_defensive_defaults :
    (∀ q : String, (performLocalSearch q []).shops = [] ∧
      (performLocalSearch q []).menu_items = []) ∧
    (∀ (q : String) (shop : Shop),
      (scoreShop q { shop with description := none }).score =
        (scoreShop q { shop with description := some "" }).score) ∧
    (∀ (q : String) (shop : Shop),
      (scoreShop q { shop with address := none }).score =
        (scoreShop q { shop with address := some "" }).score) :=
  ⟨fun _ => ⟨rfl, rfl⟩, fun _ _ => rfl, fun _ _ => rfl⟩

/-- Claim C9: the typo fallback can award at most 30 points, strictly below
the lowest name tier (40): a candidate scored only by the fallback never
outranks a candidate with any name-tier match when the description/address
bonuses agree. -/
theorem c9_fallback_below_name_tier :
    (∀ q name : String, fallbackAward q name ≤ 30) ∧
    ∀ (q : String) (shopA shopB : Shop),
      nameTierScore q (toLowerStr shopA.name) = 0 →
      nameTierScore q (toLowerStr shopB.name) ≠ 0 →
      descBonus q (toLowerStr (shopA.description.getD "")) =
        descBonus q (toLowerStr (shopB.description.getD "")) →
      addrBonus q (toLowerStr (shopA.address.getD "")) =
        addrBonus q (toLowerStr (shopB.address.getD "")) →
      (scoreShop q shopA).score < (scoreShop q shopB).score := by
  refine ⟨fallbackAward_le, ?_⟩
  intro q shopA shopB hA hB hd ha
  rw [scoreShop_score, scoreShop_score, hA, hd, ha]
  have h30 := fallbackAward_le q (toLowerStr shopA.name)
  have hvals := nameTierScore_values q (toLowerStr shopB.name)
  split_ifs <;> omega

/-- Claim C9 witness: for the query `"urb"`, the fallback-only candidate
`"urn"` (score 20) ranks below the substring candidate `"kurbk"`
(score 40). -/
theorem c9_witness :
    (scoreShop "urb" ⟨"1", "urn", none, none, "", 0, true⟩).score <
      (scoreShop "urb" ⟨"2", "kurbk", none, none, "", 0, true⟩).score :=
  c9_fallback_below_name_tier.2 "urb" _ _ (by decide) (by decide) rfl rfl

/-- Claim C10: the suggestions are computed only from the query and the
static popular list: they are identical across any two candidate lists. -/
theorem c10_suggestions_independent :
    ∀ (q : String) (shops1 shops2 : List Shop),
      (performLocalSearch q shops1).suggestions =
        (performLocalSearch q shops2).suggestions :=
  fun _ _ _ => rfl
